import Mathlib

/-!
Verification of the Risk-Factors extraction core
(`src/old/src/scraping/ExtractRiskFactors.py`).

This file gives a shallow embedding of the extraction core: the text
normalizer `clean_text`, the anchor-bounded extractor
`extract_content_between_anchors`, the TOC locator `extract_via_toc`, the
regex fallback locator `extract_via_regex`, and the per-record driver core
`process_filing` (its post-parse part).

Modelling conventions, fixed once here:

* An HTML document parsed by BeautifulSoup is modelled as a rooted ordered
  tree `Node`; the soup object itself is the root element (tag name
  `"[document]"`, no attributes) and its descendants are the parsed markup.
  Attribute dictionaries are association lists looked up from the front.
* BeautifulSoup semantics that the source relies on are embedded as follows:
  - `find_next()` with no arguments yields the next *element* (tag) in
    pre-order document order; bare text nodes are not matched by an empty
    filter, so the traversal loops in the source iterate over tags only.
  - `soup.find(id=v)` is the first element in document order whose `id`
    attribute equals `v`; when `v` is the empty string it also matches an
    element with no `id` attribute (matching against a falsy value).
  - `soup.find('a', string=f)` matches an `a` element whose `.string`
    property (the unique text of a single-child chain) satisfies `f`; a tag
    whose `.string` is `None` never matches.
  - `soup.find_all('a', href=True)` is the list, in document order, of `a`
    elements possessing an `href` attribute (of any value).
  - `soup.find_all(string=pat)` is the list, in document order, of text
    nodes whose content matches `pat`.
  - `tag == tag` is structural equality (name, attributes, children).
  - `tag.get_text(strip=True)` concatenates, without separator, the
    stripped non-empty descendant strings; `tag.get_text()` concatenates
    the raw descendant strings.
* Python whitespace (`str.strip`, `re`'s `\s`) is the predicate `isPySpace`.
* The regular expressions of the source are embedded as deterministic
  scanners (`searchItem1A`, `stop_pattern_match`); case-insensitivity is
  modelled as ASCII case folding.
* `unicodedata.normalize("NFKC", _)` is library code outside the
  repository; it is kept as an explicit function parameter `nfkc` of the
  definitions that use `clean_text`.  Statements that need a fact about
  NFKC take it as a hypothesis (witnessed by instantiating `nfkc := id`).
-/

/-! ## Python whitespace and the text normalizer `clean_text` -/

/-- The set of characters stripped by Python's `str.strip()` and matched by
`re`'s `\s` on `str` input. -/
def isPySpace (c : Char) : Bool :=
  decide ((9 ≤ c.toNat ∧ c.toNat ≤ 13) ∨ (28 ≤ c.toNat ∧ c.toNat ≤ 31) ∨
    c.toNat = 32 ∨ c.toNat = 0x85 ∨ c.toNat = 0xa0 ∨ c.toNat = 0x1680 ∨
    (0x2000 ≤ c.toNat ∧ c.toNat ≤ 0x200a) ∨ c.toNat = 0x2028 ∨
    c.toNat = 0x2029 ∨ c.toNat = 0x202f ∨ c.toNat = 0x205f ∨ c.toNat = 0x3000)

/-- Remove trailing Python whitespace. -/
def dropTrailingWs (l : List Char) : List Char :=
  (l.reverse.dropWhile isPySpace).reverse

/-- Python `str.strip()` on a character list. -/
def stripL (l : List Char) : List Char :=
  dropTrailingWs (l.dropWhile isPySpace)

/-- Python `str.strip()`. -/
def stripStr (s : String) : String := ⟨stripL s.data⟩

/-- One pass of `re.sub(r'\s+', ' ', _)`: the flag records whether the
previous character was whitespace (in which case further whitespace of the
same run is dropped). -/
def collapseAux : Bool → List Char → List Char
  | _, [] => []
  | inWs, c :: cs =>
    if isPySpace c then
      if inWs then collapseAux true cs else ' ' :: collapseAux true cs
    else c :: collapseAux false cs

/-- `re.sub(r'\s+', ' ', _)`: every maximal whitespace run becomes one space. -/
def collapseL (l : List Char) : List Char := collapseAux false l

/-- `re.sub(r'\s+', ' ', s).strip()`, the whitespace part of `clean_text`. -/
def normWs (s : String) : String := ⟨stripL (collapseL s.data)⟩

/-- `clean_text` (ExtractRiskFactors.py lines 13-19): NFKC normalization,
whitespace collapsing, strip.  `nfkc` is the library function
`unicodedata.normalize("NFKC", _)`, kept as a parameter. -/
def clean_text (nfkc : String → String) (text : String) : String :=
  normWs (nfkc text)

/-- `"".join` on a list of strings. -/
def sjoin : List String → String
  | [] => ""
  | s :: rest => s ++ sjoin rest

/-- `" ".join` on a list of strings. -/
def joinSp : List String → String
  | [] => ""
  | [s] => s
  | s :: rest => s ++ " " ++ joinSp rest

/-! ## Substring test and the two regular expressions of the source -/

/-- `seqAt needle l`: `needle` is an initial segment of `l`. -/
def seqAt : List Char → List Char → Bool
  | [], _ => true
  | _ :: _, [] => false
  | a :: as, b :: bs => a == b && seqAt as bs

/-- Python's `needle in haystack` on character lists. -/
def containsSeq (needle : List Char) : List Char → Bool
  | [] => seqAt needle []
  | c :: cs => seqAt needle (c :: cs) || containsSeq needle cs

/-- Python's `needle in haystack` on strings (case sensitive). -/
def containsSubstr (needle s : String) : Bool := containsSeq needle.data s.data

/-- `\s*`: skip a (possibly empty) whitespace run. -/
def skipWsL (l : List Char) : List Char := l.dropWhile isPySpace

/-- Match a literal given in lower case, case-insensitively (ASCII folding);
returns the rest of the input on success. -/
def litCI : List Char → List Char → Option (List Char)
  | [], l => some l
  | _ :: _, [] => none
  | p :: ps, c :: cs => if c.toLower == p then litCI ps cs else none

/-- `\.?`: consume one dot if present. -/
def optDot : List Char → List Char
  | '.' :: cs => cs
  | l => l

/-- The pattern `Item\s*1A\.?\s*Risk\s*Factors` (IGNORECASE), anchored at the
current position. -/
def matchItem1AAt (l : List Char) : Bool :=
  match litCI "item".data l with
  | none => false
  | some r1 =>
    match litCI "1a".data (skipWsL r1) with
    | none => false
    | some r2 =>
      match litCI "risk".data (skipWsL (optDot r2)) with
      | none => false
      | some r3 => (litCI "factors".data (skipWsL r3)).isSome

/-- `re.search` of `Item\s*1A\.?\s*Risk\s*Factors` (IGNORECASE): the pattern
matches at some position. -/
def searchItem1A : List Char → Bool
  | [] => matchItem1AAt []
  | c :: cs => matchItem1AAt (c :: cs) || searchItem1A cs

/-- `re.match` of `^Item\s*[2-6]\.?` (IGNORECASE): the stop pattern of the
regex locator, anchored at the start of the string. -/
def stop_pattern_match (s : String) : Bool :=
  match litCI "item".data s.data with
  | none => false
  | some r1 =>
    match skipWsL r1 with
    | c :: _ => decide ('2' ≤ c ∧ c ≤ '6')
    | [] => false

/-! ## The document tree -/

/-- A node of the parsed document: an element with tag name, attributes and
children, or a bare text node (`NavigableString`). -/
inductive Node where
  | elem (tag : String) (attrs : List (String × String)) (children : List Node)
  | text (s : String)
deriving Repr

mutual
/-- Structural equality of nodes, the embedding of BeautifulSoup's
`Tag.__eq__` / `NavigableString.__eq__`. -/
def nodeBeq : Node → Node → Bool
  | .text s, .text t => s == t
  | .elem t1 a1 c1, .elem t2 a2 c2 => t1 == t2 && a1 == a2 && nodesBeq c1 c2
  | _, _ => false
def nodesBeq : List Node → List Node → Bool
  | [], [] => true
  | x :: xs, y :: ys => nodeBeq x y && nodesBeq xs ys
  | _, _ => false
end

instance : BEq Node := ⟨nodeBeq⟩

/-- `.name`: tag name of an element, `None` for a text node. -/
def Node.tagName : Node → Option String
  | .elem t _ _ => some t
  | .text _ => none

/-- Is this node an element (a `Tag`)? -/
def Node.isElem : Node → Bool
  | .elem _ _ _ => true
  | .text _ => false

/-- `tag.get(k)`: attribute lookup, `None` for text nodes. -/
def Node.attr : Node → String → Option String
  | .elem _ attrs _, k => attrs.lookup k
  | .text _, _ => none

mutual
/-- The descendant strings of a node, in document order (`tag.strings`). -/
def Node.strings : Node → List String
  | .text s => [s]
  | .elem _ _ cs => stringsL cs
def stringsL : List Node → List String
  | [] => []
  | c :: cs => Node.strings c ++ stringsL cs
end

/-- `tag.get_text()`: descendant strings joined without separator. -/
def getTextRaw (n : Node) : String := sjoin n.strings

/-- `tag.get_text(strip=True)`: descendant strings stripped, empties
dropped, joined without separator. -/
def getTextStrip (n : Node) : String :=
  sjoin ((n.strings.map stripStr).filter (fun s => s != ""))

/-- `tag.string`: the unique text of a single-child chain, else `None`. -/
def nodeString : Node → Option String
  | .text s => some s
  | .elem _ _ [c] => nodeString c
  | .elem _ _ _ => none

/-! ## Document-order flattening

The "next node in document order" walk (`find_next`) is embedded by
flattening the tree once into its pre-order sequence; each entry records the
node, the index of its parent in the sequence, and its chain of ancestor
elements (nearest first). -/

/-- One entry of the flattened document. -/
structure Ctx where
  node : Node
  parentIdx : Option Nat
  ancestors : List Node

mutual
/-- Flatten one node (pre-order), given its parent index, its ancestor chain
and its own index `i` in the whole sequence. -/
def flattenN (p : Option Nat) (anc : List Node) (i : Nat) : Node → List Ctx
  | .text s => [⟨.text s, p, anc⟩]
  | .elem t a cs =>
    ⟨.elem t a cs, p, anc⟩ :: flattenL (some i) (Node.elem t a cs :: anc) (i + 1) cs
/-- Flatten a sibling list starting at index `i`. -/
def flattenL (p : Option Nat) (anc : List Node) (i : Nat) : List Node → List Ctx
  | [] => []
  | c :: cs =>
    let l := flattenN p anc i c
    l ++ flattenL p anc (i + l.length) cs
end

/-- The pre-order sequence of the whole document (the root at index 0). -/
def docWalk (root : Node) : List Ctx := flattenN none [] 0 root

/-- The descendants of the soup object, in document order: everything after
the root.  All `soup.find*` searches range over this list. -/
def descendants (root : Node) : List Ctx := (docWalk root).drop 1

/-- The elements strictly after position `i` in document order: the sequence
of nodes produced by iterating `find_next()` from the node at index `i`. -/
def tagsAfter (root : Node) (i : Nat) : List Node :=
  (((docWalk root).drop (i + 1)).map Ctx.node).filter Node.isElem

/-! ## The anchor-bounded extractor (lines 21-54) -/

/-- `s` starts with `'#'` (Python `href.startswith('#')`; false for the
empty string, mirroring the falsiness check that precedes it). -/
def strStartsHash (s : String) : Bool :=
  match s.data with
  | c :: _ => c == '#'
  | [] => false

/-- Python `s[1:]`: drop the first code point. -/
def strDropOne (s : String) : String := ⟨s.data.tail⟩

/-- `soup.find(id=v)` match condition on one element: the `id` attribute
equals `v`; an element with no `id` attribute matches exactly the falsy
value `v = ""`. -/
def matchesId (n : Node) (s : String) : Bool :=
  match n with
  | .elem _ attrs _ =>
    match attrs.lookup "id" with
    | some v => v == s
    | none => s == ""
  | .text _ => false

/-- Index (in `docWalk`) of `soup.find(id=startId)`, the start anchor. -/
def find_start_idx (root : Node) (startId : String) : Option Nat :=
  (((docWalk root).drop 1).findIdx? (fun c => matchesId c.node startId)).map (· + 1)

/-- The end-anchor test of the extraction loop:
`if end_id and curr.get('id') == end_id` — an empty `end_id` is falsy and
disables the check. -/
def endHit (endId : Option String) (n : Node) : Bool :=
  match endId with
  | some e => e != "" && n.attr "id" == some e
  | none => false

/-- `max_elements` (line 31), the traversal ceiling of the extractor. -/
def max_elements : Nat := 5000

/-- The `while curr and count < max_elements` loop of
`extract_content_between_anchors`, over the `find_next()` chain (a list of
elements): returns the accumulated fragments and the number of nodes the
loop examined.  `fuel` is the number of loop iterations still allowed by the
ceiling; reaching the end anchor stops before accumulating its text. -/
def extractWalk (endId : Option String) : Nat → List Node → List String × Nat
  | 0, _ => ([], 0)
  | _ + 1, [] => ([], 0)
  | fuel + 1, n :: rest =>
    if endHit endId n then ([], 1)
    else
      let r := extractWalk endId fuel rest
      (if getTextStrip n == "" then r.1 else getTextStrip n :: r.1, r.2 + 1)

/-- The accumulator of `extract_content_between_anchors`, before joining:
`None` when the start anchor does not resolve. -/
def extract_content_list (root : Node) (startId : String) (endId : Option String) :
    Option (List String) :=
  match find_start_idx root startId with
  | none => none
  | some i => some (extractWalk endId max_elements (tagsAfter root i)).1

/-- `extract_content_between_anchors` (lines 21-54). -/
def extract_content_between_anchors (root : Node) (startId : String)
    (endId : Option String) : Option String :=
  match extract_content_list root startId endId with
  | none => none
  | some l => some (joinSp l)

/-! ## The TOC locator (lines 56-107) -/

/-- Match of `soup.find('a', string=lambda t: t and "Risk Factors" in t)`:
an `a` element whose `.string` is non-`None`, truthy, and contains the
literal phrase. -/
def isRiskLink1 (n : Node) : Bool :=
  n.tagName == some "a" &&
    (match nodeString n with
     | some s => containsSubstr "Risk Factors" s
     | none => false)

/-- Match of `soup.find('a', string=re.compile(r"Item\s*1A\.?\s*Risk\s*Factors", re.IGNORECASE))`:
an `a` element whose `.string` matches the pattern. -/
def isRiskLink2 (n : Node) : Bool :=
  n.tagName == some "a" &&
    (match nodeString n with
     | some s => searchItem1A s.data
     | none => false)

/-- Step 1 of `extract_via_toc`: the literal search, then the
case-insensitive pattern search. -/
def findRiskLink (root : Node) : Option Node :=
  match ((descendants root).map Ctx.node).find? isRiskLink1 with
  | some l => some l
  | none => ((descendants root).map Ctx.node).find? isRiskLink2

/-- An `a` element carrying an `href` attribute (`find_all('a', href=True)`
match condition). -/
def isALink (n : Node) : Bool :=
  n.tagName == some "a" && (n.attr "href").isSome

/-- `toc_links = soup.find_all('a', href=True)` (line 77). -/
def toc_links (root : Node) : List Node :=
  ((descendants root).map Ctx.node).filter isALink

/-- The inner look-ahead loop (lines 84-100): the first following link whose
`href` is truthy, internal, and whose target differs from the start id. -/
def findEndId (startId : String) : List Node → Option String
  | [] => none
  | l :: ls =>
    match l.attr "href" with
    | some h =>
      if h != "" && strStartsHash h && strDropOne h != startId then some (strDropOne h)
      else findEndId startId ls
    | none => findEndId startId ls

/-- Lines 77-101: find the matched link (by structural equality) in
`toc_links`, then scan forward for the end anchor id. -/
def tocEndId (root : Node) (link : Node) (startId : String) : Option String :=
  match (toc_links root).findIdx? (fun l => nodeBeq l link) with
  | none => none
  | some i => findEndId startId ((toc_links root).drop (i + 1))

/-- Rendering of `end_id` inside the f-string diagnostic (`None` for the
unset case). -/
def endIdLabel : Option String → String
  | none => "None"
  | some e => e

/-- `extract_via_toc` (lines 56-107). -/
def extract_via_toc (root : Node) : Option String × String :=
  match findRiskLink root with
  | none => (none, "No TOC link found")
  | some link =>
    match link.attr "href" with
    | none => (none, "TOC link has no internal href")
    | some href =>
      if href == "" || !strStartsHash href then (none, "TOC link has no internal href")
      else
        let startId := strDropOne href
        let endId := tocEndId root link startId
        (extract_content_between_anchors root startId endId,
         "TOC extraction (End anchor: " ++ endIdLabel endId ++ ")")

/-! ## The regex fallback locator (lines 110-153) -/

/-- Match condition of `soup.find_all(string=pattern)`: a text node whose
content matches the item-label pattern. -/
def isTextMatch (n : Node) : Bool :=
  match n with
  | .text s => searchItem1A s.data
  | .elem _ _ _ => false

/-- The rejection filter of lines 120-123: the match's parent is an `a`, or
some ancestor of the parent is an `a` (`parent.find_parent('a')`).  Both
cases together say some ancestor of the text node is a link. -/
def insideLink (c : Ctx) : Bool :=
  c.ancestors.any (fun a => a.tagName == some "a")

/-- The acceptance test of lines 119-129 on one matched text node: not
inside a link, and the cleaned text of the enclosing parent is shorter than
100 characters. -/
def acceptMatch (nfkc : String → String) (c : Ctx) : Bool :=
  !insideLink c &&
    (match c.ancestors.head? with
     | some par => (clean_text nfkc (getTextRaw par)).length < 100
     | none => false)

/-- The accepted match of the `for m in matches` loop: the first matched
text node passing both filters (its parent is the `candidate`). -/
def regexCandidate (nfkc : String → String) (root : Node) : Option Ctx :=
  ((descendants root).filter (fun c => isTextMatch c.node)).find? (acceptMatch nfkc)

/-- The ceiling of the regex locator's forward walk (line 141). -/
def regexLimit : Nat := 3000

/-- The `while curr and count < 3000` loop of lines 141-151: accumulate
stripped text until a short "Item 2..6" header is met; returns the
accumulated fragments and the number of nodes examined. -/
def regexWalk : Nat → List Node → List String × Nat
  | 0, _ => ([], 0)
  | _ + 1, [] => ([], 0)
  | fuel + 1, n :: rest =>
    if stop_pattern_match (getTextStrip n) && (getTextStrip n).length < 100 then ([], 1)
    else
      let r := regexWalk fuel rest
      (if getTextStrip n == "" then r.1 else getTextStrip n :: r.1, r.2 + 1)

/-- `extract_via_regex` (lines 110-153).  The walk starts at
`candidate.find_next()`, i.e. at the elements after the accepted match's
parent; a text node always has a parent, the `none` branch is unreachable. -/
def extract_via_regex (nfkc : String → String) (root : Node) : Option String × String :=
  match regexCandidate nfkc root with
  | none => (none, "Regex: Header not found")
  | some c =>
    match c.parentIdx with
    | none => (some "", "Regex extraction")
    | some p => (some (joinSp (regexWalk regexLimit (tagsAfter root p)).1), "Regex extraction")

/-! ## The per-record driver core (lines 155-197, after a successful parse) -/

/-- The sentinel written when no section could be bounded (line 191). -/
def sentinel : String := "SECTION_NOT_FOUND_OR_REFERENCE_ONLY"

/-- What `process_filing` persists and reports for one successfully parsed
record. -/
structure Output where
  fileName : String
  content : String
  status : String
  method : String
deriving Repr, DecidableEq

/-- Lines 178-183: run the TOC locator; if its span is falsy (`None` or the
empty string), run the regex fallback. -/
def chosenSpan (nfkc : String → String) (root : Node) : Option String × String :=
  match extract_via_toc root with
  | (none, _) => extract_via_regex nfkc root
  | (some s, m1) => if s == "" then extract_via_regex nfkc root else (some s, m1)

/-- Lines 178-197 of `process_filing`, from the parsed tree on: one output
file named `{accession}.txt` is always written; a falsy final span is
replaced by the sentinel with status "Not Found"; the written content is
`clean_text` of the final text. -/
def process_filing (nfkc : String → String) (root : Node) (accession : String) : Output :=
  match chosenSpan nfkc root with
  | (some s, m) =>
    if s == "" then ⟨accession ++ ".txt", clean_text nfkc sentinel, "Not Found", m⟩
    else ⟨accession ++ ".txt", clean_text nfkc s, "Extracted", m⟩
  | (none, m) => ⟨accession ++ ".txt", clean_text nfkc sentinel, "Not Found", m⟩

/-! ## General lemmas about the walks and searches -/

/-- `find?` returns the head of the filtered list. -/
theorem find?_eq_head?_filter {α} (p : α → Bool) (l : List α) :
    l.find? p = (l.filter p).head? := by
  induction l with
  | nil => rfl
  | cons a l ih =>
    cases h : p a
    · rw [List.find?_cons_of_neg _ (by simp [h]), List.filter_cons, h]
      simp only [if_false, Bool.false_eq_true]; exact ih
    · rw [List.find?_cons_of_pos _ h, List.filter_cons, h]
      simp

/-- The extraction loop examines at most `fuel` nodes. -/
theorem extractWalk_count_le (endId : Option String) :
    ∀ (fuel : Nat) (l : List Node), (extractWalk endId fuel l).2 ≤ fuel
  | 0, _ => Nat.le_refl 0
  | _ + 1, [] => Nat.zero_le _
  | fuel + 1, n :: rest => by
    simp only [extractWalk]
    split
    · exact Nat.succ_le_succ (Nat.zero_le _)
    · exact Nat.succ_le_succ (extractWalk_count_le endId fuel rest)

/-- The regex locator's forward loop examines at most `fuel` nodes. -/
theorem regexWalk_count_le :
    ∀ (fuel : Nat) (l : List Node), (regexWalk fuel l).2 ≤ fuel
  | 0, _ => Nat.le_refl 0
  | _ + 1, [] => Nat.zero_le _
  | fuel + 1, n :: rest => by
    simp only [regexWalk]
    split
    · exact Nat.succ_le_succ (Nat.zero_le _)
    · exact Nat.succ_le_succ (regexWalk_count_le fuel rest)

/-- The sequence of nodes the extraction loop visits (and whose subtree text
it takes): the walk up to the ceiling, cut before the end anchor. -/
def visitedTags (endId : Option String) : Nat → List Node → List Node
  | 0, _ => []
  | _ + 1, [] => []
  | fuel + 1, n :: rest =>
    if endHit endId n then [] else n :: visitedTags endId fuel rest

/-- The extractor's accumulator is exactly the non-empty stripped subtree
text of each visited node, in order. -/
theorem extractWalk_eq_visited (endId : Option String) :
    ∀ (fuel : Nat) (l : List Node),
      (extractWalk endId fuel l).1 =
        ((visitedTags endId fuel l).map getTextStrip).filter (fun t => t != "")
  | 0, _ => rfl
  | _ + 1, [] => rfl
  | fuel + 1, n :: rest => by
    simp only [extractWalk, visitedTags]
    split
    · rfl
    · simp only [List.map_cons, List.filter_cons]
      cases h : getTextStrip n == ""
      · have hne : (getTextStrip n != "") = true := by simp [bne, h]
        simp only [h, hne, if_false, if_true, Bool.false_eq_true]
        simp [extractWalk_eq_visited endId fuel rest]
      · have hne : (getTextStrip n != "") = false := by simp [bne, h]
        simp only [h, hne, if_false, if_true, Bool.false_eq_true]
        simp [extractWalk_eq_visited endId fuel rest]

/-! ## Lemmas about stripping, collapsing and whitespace -/

/-- The first character (if any) is not whitespace. -/
def headOkWs : List Char → Bool
  | [] => true
  | d :: _ => !isPySpace d

/-- Every whitespace character is a single space not followed by further
whitespace: the shape invariant of collapsed text. -/
def pairsOk : List Char → Bool
  | [] => true
  | c :: r => (if isPySpace c then c == ' ' && headOkWs r else true) && pairsOk r

theorem pairsOk_tail {c : Char} {r : List Char} (h : pairsOk (c :: r) = true) :
    pairsOk r = true := by
  simp only [pairsOk, Bool.and_eq_true] at h
  exact h.2

theorem headOkWs_dropWhile (l : List Char) :
    headOkWs (l.dropWhile isPySpace) = true := by
  induction l with
  | nil => rfl
  | cons c cs ih =>
    rw [List.dropWhile_cons]
    split <;> rename_i h
    · exact ih
    · simp at h
      simp [headOkWs, h]

theorem pairsOk_dropWhile (q : Char → Bool) :
    ∀ l : List Char, pairsOk l = true → pairsOk (l.dropWhile q) = true
  | [], h => h
  | c :: cs, h => by
    rw [List.dropWhile_cons]
    split
    · exact pairsOk_dropWhile q cs (pairsOk_tail h)
    · exact h

theorem headOkWs_append_left {r m : List Char}
    (h : headOkWs (r ++ m) = true) : r = [] ∨ headOkWs r = true := by
  cases r with
  | nil => exact Or.inl rfl
  | cons d t => exact Or.inr h

theorem pairsOk_append_left :
    ∀ l m : List Char, pairsOk (l ++ m) = true → pairsOk l = true
  | [], _, _ => rfl
  | c :: r, m, h => by
    simp only [List.cons_append, pairsOk, Bool.and_eq_true] at h ⊢
    refine ⟨?_, pairsOk_append_left r m h.2⟩
    rcases h with ⟨h1, -⟩
    split at h1 <;> rename_i hws
    · simp only [Bool.and_eq_true] at h1
      simp only [hws, if_true, Bool.and_eq_true]
      refine ⟨h1.1, ?_⟩
      rcases headOkWs_append_left h1.2 with h | h
      · subst h; rfl
      · exact h
    · simp [hws]

/-- `dropTrailingWs` is a prefix of its argument. -/
theorem dropTrailingWs_prefixOf (l : List Char) : dropTrailingWs l <+: l := by
  rcases List.dropWhile_suffix (l := l.reverse) isPySpace with ⟨t, ht⟩
  refine ⟨t.reverse, ?_⟩
  have h2 := congrArg List.reverse ht
  simp only [List.reverse_append, List.reverse_reverse] at h2
  simpa [dropTrailingWs] using h2

theorem collapseTrue_headOk : ∀ l : List Char, headOkWs (collapseAux true l) = true
  | [] => rfl
  | c :: cs => by
    simp only [collapseAux]
    split <;> rename_i h
    · exact collapseTrue_headOk cs
    · simp at h
      simp [headOkWs, h]

theorem pairsOk_collapseAux : ∀ (l : List Char) (b : Bool), pairsOk (collapseAux b l) = true
  | [], _ => rfl
  | c :: cs, b => by
    simp only [collapseAux]
    split <;> rename_i h
    · cases b with
      | true => exact pairsOk_collapseAux cs true
      | false =>
        simp only [if_false, Bool.false_eq_true, pairsOk, Bool.and_eq_true]
        refine ⟨?_, pairsOk_collapseAux cs true⟩
        simp [isPySpace, collapseTrue_headOk cs]
    · simp at h
      simp only [pairsOk, Bool.and_eq_true, h]
      exact ⟨by simp, pairsOk_collapseAux cs false⟩

/-- Collapsing fixes any list satisfying the collapsed-shape invariant. -/
theorem collapse_id :
    ∀ l : List Char, pairsOk l = true →
      collapseAux false l = l ∧ (headOkWs l = true → collapseAux true l = l)
  | [], _ => ⟨rfl, fun _ => rfl⟩
  | c :: cs, h => by
    have htail : pairsOk cs = true := pairsOk_tail h
    simp only [pairsOk, Bool.and_eq_true] at h
    rcases h with ⟨hc, -⟩
    by_cases hws : isPySpace c = true
    · rw [if_pos hws, Bool.and_eq_true] at hc
      rcases hc with ⟨hsp, hhead⟩
      have hcs := (collapse_id cs htail).2 hhead
      have hcsp : c = ' ' := by simpa using hsp
      subst hcsp
      constructor
      · simp [collapseAux, hws, hcs]
      · intro habs
        simp [headOkWs, hws] at habs
    · have hf : isPySpace c = false := by simpa using hws
      have hcs := (collapse_id cs htail).1
      constructor
      · simp [collapseAux, hf, hcs]
      · intro _
        simp [collapseAux, hf, hcs]

theorem dropWhile_eq_self_of_headOk {l : List Char} (h : headOkWs l = true) :
    l.dropWhile isPySpace = l := by
  cases l with
  | nil => rfl
  | cons c cs =>
    simp only [headOkWs, Bool.not_eq_true'] at h
    rw [List.dropWhile_cons, if_neg (by simp [h])]

theorem headOkWs_prefix {l m : List Char} (hp : l <+: m) (h : headOkWs m = true) :
    headOkWs l = true := by
  cases l with
  | nil => rfl
  | cons c cs =>
    rcases hp with ⟨t, ht⟩
    subst ht
    exact h

theorem headOkWs_stripL (l : List Char) : headOkWs (stripL l) = true :=
  headOkWs_prefix (dropTrailingWs_prefixOf _) (headOkWs_dropWhile l)

theorem pairsOk_stripL {l : List Char} (h : pairsOk l = true) :
    pairsOk (stripL l) = true := by
  have h1 : pairsOk (l.dropWhile isPySpace) = true := pairsOk_dropWhile _ l h
  rcases dropTrailingWs_prefixOf (l.dropWhile isPySpace) with ⟨t, ht⟩
  exact pairsOk_append_left _ t (by rw [stripL, ht]; exact h1)

/-- The reverse of a stripped list starts with a non-whitespace character. -/
theorem headOkWs_stripL_reverse (l : List Char) :
    headOkWs (stripL l).reverse = true := by
  have : (stripL l).reverse = ((l.dropWhile isPySpace).reverse).dropWhile isPySpace := by
    simp [stripL, dropTrailingWs]
  rw [this]
  exact headOkWs_dropWhile _

theorem stripL_stripL (l : List Char) : stripL (stripL l) = stripL l := by
  have h1 : (stripL l).dropWhile isPySpace = stripL l :=
    dropWhile_eq_self_of_headOk (headOkWs_stripL l)
  have h2 : ((stripL l).reverse).dropWhile isPySpace = (stripL l).reverse :=
    dropWhile_eq_self_of_headOk (headOkWs_stripL_reverse l)
  rw [stripL, h1, dropTrailingWs, h2, List.reverse_reverse]

/-- Whitespace collapsing followed by stripping is idempotent. -/
theorem normWs_idem (s : String) : normWs (normWs s) = normWs s := by
  show (⟨stripL (collapseL (stripL (collapseL s.data)))⟩ : String) = ⟨stripL (collapseL s.data)⟩
  have hp : pairsOk (stripL (collapseL s.data)) = true :=
    pairsOk_stripL (pairsOk_collapseAux s.data false)
  have hc : collapseL (stripL (collapseL s.data)) = stripL (collapseL s.data) :=
    (collapse_id _ hp).1
  rw [hc, stripL_stripL]

/-! ## Non-whitespace content survives normalization -/

/-- The string has at least one non-whitespace character. -/
def hasNonWsB (s : String) : Bool := s.data.any (fun c => !isPySpace c)

theorem mem_dropWhile_of_not {p : Char → Bool} {c : Char} :
    ∀ l : List Char, c ∈ l → p c = false → c ∈ l.dropWhile p
  | d :: ds, hm, hc => by
    rw [List.dropWhile_cons]
    rcases List.mem_cons.mp hm with h | h
    · subst h
      rw [if_neg (by simp [hc])]
      exact List.mem_cons_self _ _
    · split
      · exact mem_dropWhile_of_not ds h hc
      · exact List.mem_cons_of_mem _ h

theorem mem_stripL_of_not {c : Char} {l : List Char}
    (hm : c ∈ l) (hc : isPySpace c = false) : c ∈ stripL l := by
  have h1 : c ∈ l.dropWhile isPySpace := mem_dropWhile_of_not l hm hc
  have h2 : c ∈ (l.dropWhile isPySpace).reverse := List.mem_reverse.mpr h1
  have h3 := mem_dropWhile_of_not _ h2 hc
  simpa [stripL, dropTrailingWs] using List.mem_reverse.mpr h3

theorem mem_collapseAux_of_not {c : Char} (hc : isPySpace c = false) :
    ∀ (l : List Char) (b : Bool), c ∈ l → c ∈ collapseAux b l
  | d :: ds, b, hm => by
    simp only [collapseAux]
    rcases List.mem_cons.mp hm with h | h
    · subst h
      rw [if_neg (by simp [hc])]
      exact List.mem_cons_self _ _
    · split
      · split
        · exact mem_collapseAux_of_not hc ds true h
        · exact List.mem_cons_of_mem _ (mem_collapseAux_of_not hc ds true h)
      · exact List.mem_cons_of_mem _ (mem_collapseAux_of_not hc ds false h)

theorem string_ne_empty_of_data {s : String} (h : s.data ≠ []) : s ≠ "" := by
  intro he
  exact h (by rw [he])

/-- A string with a non-whitespace character does not normalize to `""`. -/
theorem normWs_ne_empty {s : String} (h : hasNonWsB s = true) : normWs s ≠ "" := by
  rcases List.any_eq_true.mp h with ⟨c, hm, hc⟩
  have hc' : isPySpace c = false := by simpa using hc
  have h1 : c ∈ collapseL s.data := mem_collapseAux_of_not hc' s.data false hm
  have h2 : c ∈ stripL (collapseL s.data) := mem_stripL_of_not h1 hc'
  exact string_ne_empty_of_data (by
    intro he
    rw [show (normWs s).data = stripL (collapseL s.data) from rfl] at he
    rw [he] at h2
    cases h2)

/-- A non-empty stripped string has a non-whitespace (first) character. -/
theorem hasNonWs_stripStr {x : String} (h : stripStr x ≠ "") :
    hasNonWsB (stripStr x) = true := by
  cases hd : stripL x.data with
  | nil =>
    exact absurd (by rw [show stripStr x = ⟨stripL x.data⟩ from rfl, hd]) h
  | cons c t =>
    have hok := headOkWs_stripL x.data
    rw [hd] at hok
    simp only [headOkWs, Bool.not_eq_true'] at hok
    apply List.any_eq_true.mpr
    refine ⟨c, ?_, by simp [hok]⟩
    rw [show (stripStr x).data = stripL x.data from rfl, hd]
    exact List.mem_cons_self _ _

theorem mem_data_sjoin {c : Char} {s : String} :
    ∀ L : List String, s ∈ L → c ∈ s.data → c ∈ (sjoin L).data
  | t :: L, hm, hc => by
    rw [show sjoin (t :: L) = t ++ sjoin L from rfl, String.data_append]
    rcases List.mem_cons.mp hm with h | h
    · subst h
      exact List.mem_append_left _ hc
    · exact List.mem_append_right _ (mem_data_sjoin L h hc)

theorem sjoin_ne_empty : ∀ L : List String, sjoin L ≠ "" → ∃ s ∈ L, s ≠ ""
  | [], h => absurd rfl h
  | t :: L, h => by
    by_cases ht : t = ""
    · subst ht
      have : sjoin ("" :: L) = sjoin L := by
        apply String.ext
        rw [show sjoin ("" :: L) = "" ++ sjoin L from rfl, String.data_append]
        rfl
      rcases sjoin_ne_empty L (by rw [this] at h; exact h) with ⟨s, hm, hs⟩
      exact ⟨s, List.mem_cons_of_mem _ hm, hs⟩
    · exact ⟨t, List.mem_cons_self _ _, ht⟩

/-- A non-empty `get_text(strip=True)` contains a non-whitespace character. -/
theorem hasNonWs_getTextStrip {n : Node} (h : getTextStrip n ≠ "") :
    hasNonWsB (getTextStrip n) = true := by
  rcases sjoin_ne_empty _ h with ⟨s, hm, hs⟩
  have hmm := hm
  rw [List.mem_filter] at hmm
  rcases hmm with ⟨hmap, -⟩
  rcases List.mem_map.mp hmap with ⟨x, -, hx⟩
  subst hx
  rcases List.any_eq_true.mp (hasNonWs_stripStr hs) with ⟨c, hcm, hc⟩
  apply List.any_eq_true.mpr
  exact ⟨c, mem_data_sjoin _ hm hcm, hc⟩

theorem mem_data_joinSp {c : Char} {s : String} :
    ∀ L : List String, s ∈ L → c ∈ s.data → c ∈ (joinSp L).data
  | [t], hm, hc => by
    rcases List.mem_cons.mp hm with h | h
    · subst h; exact hc
    · cases h
  | t :: u :: L, hm, hc => by
    rw [show joinSp (t :: u :: L) = t ++ " " ++ joinSp (u :: L) from rfl,
      String.data_append, String.data_append]
    rcases List.mem_cons.mp hm with h | h
    · subst h
      exact List.mem_append_left _ (List.mem_append_left _ hc)
    · exact List.mem_append_right _ (mem_data_joinSp (u :: L) h hc)

theorem hasNonWs_joinSp {s : String} {L : List String}
    (hm : s ∈ L) (h : hasNonWsB s = true) : hasNonWsB (joinSp L) = true := by
  rcases List.any_eq_true.mp h with ⟨c, hcm, hc⟩
  exact List.any_eq_true.mpr ⟨c, mem_data_joinSp L hm hcm, hc⟩

/-- Every fragment the extraction loop accumulates is non-empty stripped
subtree text, hence contains a non-whitespace character. -/
theorem extractWalk_mem_hasNonWs (endId : Option String) :
    ∀ (fuel : Nat) (l : List Node) (x : String),
      x ∈ (extractWalk endId fuel l).1 → hasNonWsB x = true
  | fuel + 1, n :: rest, x, hx => by
    rw [extractWalk] at hx
    split at hx
    · cases hx
    · simp only at hx
      split at hx <;> rename_i h
      · exact extractWalk_mem_hasNonWs endId fuel rest x hx
      · rcases List.mem_cons.mp hx with he | he
        · subst he
          exact hasNonWs_getTextStrip (by simpa using h)
        · exact extractWalk_mem_hasNonWs endId fuel rest x he

theorem regexWalk_mem_hasNonWs :
    ∀ (fuel : Nat) (l : List Node) (x : String),
      x ∈ (regexWalk fuel l).1 → hasNonWsB x = true
  | fuel + 1, n :: rest, x, hx => by
    rw [regexWalk] at hx
    split at hx
    · cases hx
    · simp only at hx
      split at hx <;> rename_i h
      · exact regexWalk_mem_hasNonWs fuel rest x hx
      · rcases List.mem_cons.mp hx with he | he
        · subst he
          exact hasNonWs_getTextStrip (by simpa using h)
        · exact regexWalk_mem_hasNonWs fuel rest x he

/-- A non-empty joined accumulator of either walk has a non-whitespace
character. -/
theorem hasNonWs_joinSp_walk {L : List String}
    (hmem : ∀ x ∈ L, hasNonWsB x = true) (h : joinSp L ≠ "") :
    hasNonWsB (joinSp L) = true := by
  cases L with
  | nil => exact absurd rfl h
  | cons t L => exact hasNonWs_joinSp (List.mem_cons_self t L) (hmem t (List.mem_cons_self t L))

/-! ## Characterizations of the TOC end-anchor scan and the start lookup -/

theorem strStartsHash_empty : strStartsHash "" = false := rfl

/-- The spec's description of the end-anchor choice: the first link of the
list with an internal (`#`-leading) href whose target differs from the start
id, rendered with `findSome?`. -/
def specFirstDistinct (startId : String) (links : List Node) : Option String :=
  links.findSome? (fun l =>
    match l.attr "href" with
    | some h =>
      if h != "" && strStartsHash h && strDropOne h != startId then some (strDropOne h)
      else none
    | none => none)

theorem findEndId_eq_spec (startId : String) :
    ∀ links : List Node, findEndId startId links = specFirstDistinct startId links
  | [] => rfl
  | l :: ls => by
    have ih := findEndId_eq_spec startId ls
    cases ha : l.attr "href" with
    | none =>
      rw [findEndId, specFirstDistinct, List.findSome?_cons]
      simp only [ha]
      exact ih
    | some hv =>
      rw [findEndId, specFirstDistinct, List.findSome?_cons]
      simp only [ha]
      cases hg : (hv != "" && strStartsHash hv && strDropOne hv != startId) with
      | true => simp [hg]
      | false =>
        simp only [hg, Bool.false_eq_true, if_false]
        exact ih

theorem findEndId_ne_start (startId : String) :
    ∀ (links : List Node) (x : String),
      findEndId startId links = some x → x ≠ startId
  | l :: ls, x, h => by
    rw [findEndId] at h
    cases ha : l.attr "href" with
    | none =>
      rw [ha] at h
      exact findEndId_ne_start startId ls x h
    | some hv =>
      rw [ha] at h
      cases hg : (hv != "" && strStartsHash hv && strDropOne hv != startId) with
      | true =>
        simp only [hg, if_true] at h
        rw [Option.some_inj] at h
        subst h
        simp only [Bool.and_eq_true] at hg
        exact bne_iff_ne.mp hg.2
      | false =>
        simp only [hg, Bool.false_eq_true, if_false] at h
        exact findEndId_ne_start startId ls x h

theorem findEndId_eq_none_iff (startId : String) :
    ∀ links : List Node,
      findEndId startId links = none ↔
        ∀ l ∈ links, ∀ h, l.attr "href" = some h →
          strStartsHash h = false ∨ strDropOne h = startId
  | [] => by simp [findEndId]
  | l :: ls => by
    rw [findEndId]
    cases hattr : l.attr "href" with
    | none =>
      constructor
      · intro h l' hl' hv ha
        rcases List.mem_cons.mp hl' with he | he
        · subst he
          rw [hattr] at ha
          cases ha
        · exact (findEndId_eq_none_iff startId ls).mp h l' he hv ha
      · intro h
        exact (findEndId_eq_none_iff startId ls).mpr
          (fun l' hl' hv ha => h l' (List.mem_cons_of_mem _ hl') hv ha)
    | some hv =>
      cases hg : (hv != "" && strStartsHash hv && strDropOne hv != startId) with
      | true =>
        simp only [hg, if_true]
        constructor
        · intro h
          cases h
        · intro h
          simp only [Bool.and_eq_true] at hg
          rcases h l (List.mem_cons_self _ _) hv hattr with hsh | hdr
          · rw [hg.1.2] at hsh
            cases hsh
          · exact absurd hdr (bne_iff_ne.mp hg.2)
      | false =>
        simp only [hg, Bool.false_eq_true, if_false]
        have hgf := hg
        have hlok : strStartsHash hv = false ∨ strDropOne hv = startId := by
          by_cases he : hv = ""
          · subst he
            exact Or.inl strStartsHash_empty
          · by_cases hsh : strStartsHash hv = true
            · right
              by_cases hdr : strDropOne hv = startId
              · exact hdr
              · rw [bne_iff_ne.mpr he, hsh, bne_iff_ne.mpr hdr] at hgf
                simp at hgf
            · exact Or.inl (by simpa using hsh)
        constructor
        · intro h l' hl' hv' ha
          rcases List.mem_cons.mp hl' with he | he
          · subst he
            rw [hattr] at ha
            rw [Option.some_inj] at ha
            subst ha
            exact hlok
          · exact (findEndId_eq_none_iff startId ls).mp h l' he hv' ha
        · intro h
          exact (findEndId_eq_none_iff startId ls).mpr
            (fun l' hl' hv' ha => h l' (List.mem_cons_of_mem _ hl') hv' ha)

theorem find_start_idx_eq_none_iff (root : Node) (s : String) :
    find_start_idx root s = none ↔
      ∀ c ∈ descendants root, matchesId c.node s = false := by
  rw [find_start_idx, Option.map_eq_none', List.findIdx?_eq_none_iff]
  exact Iff.rfl

/-! ## The diagnostic labels are pairwise distinct -/

theorem toc_label_length (x : String) :
    ("TOC extraction (End anchor: " ++ x ++ ")").length = 29 + x.length := by
  rw [String.length_append, String.length_append]
  have h1 : ("TOC extraction (End anchor: " : String).length = 28 := by decide
  have h2 : (")" : String).length = 1 := by decide
  rw [h1, h2]
  omega

theorem toc_label_ne_no_link (x : String) :
    "TOC extraction (End anchor: " ++ x ++ ")" ≠ "No TOC link found" := by
  intro h
  have hl := congrArg String.length h
  rw [toc_label_length] at hl
  rw [show ("No TOC link found" : String).length = 17 from by decide] at hl
  omega

theorem getLast?_append_single {α} (a : α) : ∀ l : List α, (l ++ [a]).getLast? = some a
  | [] => rfl
  | c :: cs => by
    rw [List.cons_append]
    cases hcs : cs ++ [a] with
    | nil => exact absurd hcs (by simp)
    | cons d ds =>
      rw [List.getLast?_cons_cons, ← hcs]
      exact getLast?_append_single a cs

theorem toc_label_ne_no_href (x : String) :
    "TOC extraction (End anchor: " ++ x ++ ")" ≠ "TOC link has no internal href" := by
  intro h
  have hd := congrArg (fun s : String => s.data.getLast?) h
  simp only [String.data_append] at hd
  rw [getLast?_append_single] at hd
  exact absurd hd (by decide)

/-! ## Shape of the spans produced by the locators -/

theorem extract_content_some_shape {root : Node} {sid : String} {e : Option String}
    {s : String} (h : extract_content_between_anchors root sid e = some s) :
    ∃ L, s = joinSp L ∧ ∀ x ∈ L, hasNonWsB x = true := by
  rw [extract_content_between_anchors] at h
  cases hl : extract_content_list root sid e with
  | none =>
    rw [hl] at h
    cases h
  | some L =>
    rw [hl, Option.some_inj] at h
    refine ⟨L, h.symm, ?_⟩
    rw [extract_content_list] at hl
    cases hi : find_start_idx root sid with
    | none =>
      rw [hi] at hl
      cases hl
    | some i =>
      rw [hi, Option.some_inj] at hl
      subst hl
      exact fun x hx => extractWalk_mem_hasNonWs e _ _ x hx

theorem toc_some_hasNonWs {root : Node} {s : String}
    (h : (extract_via_toc root).1 = some s) (hne : s ≠ "") : hasNonWsB s = true := by
  rw [extract_via_toc] at h
  split at h
  · simp at h
  · split at h
    · simp at h
    · split at h
      · simp at h
      · simp only at h
        rcases extract_content_some_shape h with ⟨L, hL, hmem⟩
        subst hL
        exact hasNonWs_joinSp_walk hmem hne

theorem regex_some_hasNonWs {nfkc : String → String} {root : Node} {s : String}
    (h : (extract_via_regex nfkc root).1 = some s) (hne : s ≠ "") :
    hasNonWsB s = true := by
  rw [extract_via_regex] at h
  split at h
  · simp at h
  · split at h
    · simp only at h
      rw [Option.some_inj] at h
      exact absurd h.symm hne
    · simp only at h
      rw [Option.some_inj] at h
      subst h
      exact hasNonWs_joinSp_walk (fun x hx => regexWalk_mem_hasNonWs _ _ x hx) hne

theorem chosenSpan_toc_falsy {nfkc : String → String} {root : Node} {m : String}
    (h : extract_via_toc root = (none, m) ∨ extract_via_toc root = (some "", m)) :
    chosenSpan nfkc root = extract_via_regex nfkc root := by
  rcases h with h | h <;> simp [chosenSpan, h]

theorem chosenSpan_some_hasNonWs {nfkc : String → String} {root : Node} {s : String}
    (h : (chosenSpan nfkc root).1 = some s) (hne : s ≠ "") : hasNonWsB s = true := by
  rw [chosenSpan] at h
  split at h <;> rename_i heq
  · exact regex_some_hasNonWs h hne
  · rename_i s1 m1
    split at h
    · exact regex_some_hasNonWs h hne
    · simp only at h
      rw [Option.some_inj] at h
      subst h
      exact toc_some_hasNonWs (by rw [heq]) hne

/-! ## Case analysis of the driver core (shared by several results below) -/

theorem process_filing_fileName (nfkc : String → String) (root : Node) (acc : String) :
    (process_filing nfkc root acc).fileName = acc ++ ".txt" := by
  rw [process_filing]
  split
  · split <;> rfl
  · rfl

theorem process_filing_falsy {nfkc : String → String} {root : Node} (acc : String)
    (h : (chosenSpan nfkc root).1 = none ∨ (chosenSpan nfkc root).1 = some "") :
    (process_filing nfkc root acc).content = clean_text nfkc sentinel ∧
    (process_filing nfkc root acc).status = "Not Found" := by
  rw [process_filing]
  split <;> rename_i heq
  · rename_i s m
    rw [heq] at h
    have hs : s = "" := by
      rcases h with h | h
      · cases h
      · exact Option.some_inj.mp h
    subst hs
    rw [if_pos (show ("" == "") = true from rfl)]
    exact ⟨rfl, rfl⟩
  · exact ⟨rfl, rfl⟩

theorem process_filing_nonempty {nfkc : String → String} {root : Node} (acc : String)
    {s : String} (h : (chosenSpan nfkc root).1 = some s) (hne : s ≠ "") :
    (process_filing nfkc root acc).content = clean_text nfkc s ∧
    (process_filing nfkc root acc).status = "Extracted" := by
  rw [process_filing]
  split <;> rename_i heq
  · rename_i s' m
    rw [heq] at h
    have hs : s' = s := Option.some_inj.mp h
    subst hs
    rw [if_neg (by simp [hne])]
    exact ⟨rfl, rfl⟩
  · rename_i m
    rw [heq] at h
    cases h

theorem process_filing_content_ne {nfkc : String → String} {root : Node} (acc : String)
    (hn : ∀ s, hasNonWsB s = true → hasNonWsB (nfkc s) = true) :
    (process_filing nfkc root acc).content ≠ "" := by
  cases hc : (chosenSpan nfkc root).1 with
  | none =>
    rw [(process_filing_falsy acc (Or.inl hc)).1]
    exact normWs_ne_empty (hn sentinel (by decide))
  | some s =>
    by_cases hs : s = ""
    · subst hs
      rw [(process_filing_falsy acc (Or.inr hc)).1]
      exact normWs_ne_empty (hn sentinel (by decide))
    · rw [(process_filing_nonempty acc hc hs).1]
      exact normWs_ne_empty (hn s (chosenSpan_some_hasNonWs hc hs))

/-! ## Concrete documents used as witnesses and counterexamples -/

/-- A document with one nested text fragment after the start anchor:
`<div id="s"></div><div><p>hi</p></div>`. -/
def c1doc : Node := .elem "[document]" [] [
  .elem "div" [("id", "s")] [],
  .elem "div" [] [.elem "p" [] [.text "hi"]]]

/-- The stripped non-empty text fragments of a whole document, in order. -/
def textFragments (root : Node) : List String :=
  (root.strings.map stripStr).filter (fun s => s != "")

/-- A TOC document: a Risk-Factors link, a duplicate page-number link to the
same anchor, a link to the next item, and the two anchored sections. -/
def c3doc : Node := .elem "[document]" [] [
  .elem "a" [("href", "#ra")] [.text "Item 1A. Risk Factors"],
  .elem "a" [("href", "#ra")] [.text "12"],
  .elem "a" [("href", "#ib")] [.text "Item 2"],
  .elem "div" [("id", "ra")] [.elem "p" [] [.text "risks here"]],
  .elem "div" [("id", "ib")] [.text "other"]]

/-- The Risk-Factors link of `c3doc`. -/
def c3link : Node := .elem "a" [("href", "#ra")] [.text "Item 1A. Risk Factors"]

/-- A document whose only link has the phrase in its *visible* text but not
as its `.string` (the link has two children):
`<a href="#x">Risk Factors<b>!</b></a>`. -/
def c4doc : Node := .elem "[document]" [] [
  .elem "a" [("href", "#x")] [.text "Risk Factors", .elem "b" [] [.text "!"]]]

/-- A document with no Risk-Factors mention at all. -/
def c4docB : Node := .elem "[document]" [] [.elem "p" [] [.text "nothing here"]]

/-- The header phrase once inside a TOC link and once as a standalone short
header. -/
def c5doc : Node := .elem "[document]" [] [
  .elem "a" [("href", "#r")] [.text "Item 1A. Risk Factors"],
  .elem "p" [] [.text "Item 1A. Risk Factors"]]

/-- The accepted candidate context of `c5doc`: the standalone text node,
whose parent (index 3) is the `p` element. -/
def c5ctx : Ctx :=
  ⟨.text "Item 1A. Risk Factors", some 3,
    [.elem "p" [] [.text "Item 1A. Risk Factors"], c5doc]⟩

/-- No TOC link; the regex locator accepts the header but the very next
element is a short "Item 2" header, so the regex span is the empty string. -/
def c6doc : Node := .elem "[document]" [] [
  .elem "div" [] [.elem "span" [] [.text "Item 2"], .text "Item 1A Risk Factors"]]

/-- A TOC link whose target anchor exists but is the last node, so the TOC
locator returns an empty (not null) span. -/
def c9doc : Node := .elem "[document]" [] [
  .elem "a" [("href", "#s")] [.text "Risk Factors"],
  .elem "div" [("id", "s")] []]

/-- A TOC link whose internal target id resolves to no element. -/
def c10doc : Node := .elem "[document]" [] [
  .elem "a" [("href", "#zzz")] [.text "Risk Factors"],
  .elem "div" [("id", "other")] [.text "body"]]

/-- The Risk-Factors link of `c10doc`. -/
def c10link : Node := .elem "a" [("href", "#zzz")] [.text "Risk Factors"]

/-! ## The claims -/

/-- C1 (corrected): the extractor does *not* take each text fragment once.
For every resolvable start anchor, the accumulator is the stripped
*subtree* text of every visited element — so text nested below several
visited elements is appended once per such element, and a fragment can
appear several times in the joined section. -/
theorem extractor_subtree_text_per_visited (root : Node) (startId : String)
    (endId : Option String) (i : Nat) (h : find_start_idx root startId = some i) :
    extract_content_list root startId endId =
      some (((visitedTags endId max_elements (tagsAfter root i)).map getTextStrip).filter
        (fun t => t != "")) := by
  rw [extract_content_list, h]
  show some (extractWalk endId max_elements (tagsAfter root i)).1 = _
  rw [extractWalk_eq_visited]

/-- C1 counterexample: `c1doc` contains the text fragment `"hi"` exactly
once, yet the extractor's accumulator contains it twice (once for the outer
`div`, once for the inner `p`), and the returned section is `"hi hi"`. -/
theorem extractor_duplicates_nested_fragment :
    extract_content_list c1doc "s" none = some ["hi", "hi"] ∧
    (textFragments c1doc).count "hi" = 1 ∧
    extract_content_between_anchors c1doc "s" none = some "hi hi" := by
  refine ⟨by decide, by decide, by decide⟩

/-- C1 witness: the characterization instantiated on `c1doc`. -/
theorem extractor_subtree_text_per_visited_witness :
    extract_content_list c1doc "s" none =
      some (((visitedTags none max_elements (tagsAfter c1doc 1)).map getTextStrip).filter
        (fun t => t != "")) :=
  extractor_subtree_text_per_visited c1doc "s" none 1 rfl

/-- C2: both traversal loops are bounded — the anchor-bounded extractor
examines at most `max_elements = 5000` nodes and the regex locator's
forward walk at most `regexLimit = 3000` nodes on any walk (the Lean
functions are total, so each walk terminates); and whenever the start
anchor resolves the extractor returns the accumulated text (never a
failure), including when the ceiling is what stopped it. -/
theorem traversal_ceilings (root : Node) (startId : String) (endId : Option String)
    (i : Nat) :
    (extractWalk endId max_elements (tagsAfter root i)).2 ≤ 5000 ∧
    (regexWalk regexLimit (tagsAfter root i)).2 ≤ 3000 ∧
    (find_start_idx root startId = some i →
      extract_content_between_anchors root startId endId =
        some (joinSp (extractWalk endId max_elements (tagsAfter root i)).1)) := by
  refine ⟨extractWalk_count_le endId max_elements _, regexWalk_count_le regexLimit _, ?_⟩
  intro h
  rw [extract_content_between_anchors, extract_content_list, h]

/-- C2 witness: the ceilings instantiated on `c1doc`. -/
theorem traversal_ceilings_witness :
    (extractWalk none max_elements (tagsAfter c1doc 1)).2 ≤ 5000 ∧
    (regexWalk regexLimit (tagsAfter c1doc 1)).2 ≤ 3000 ∧
    extract_content_between_anchors c1doc "s" none =
      some (joinSp (extractWalk none max_elements (tagsAfter c1doc 1)).1) := by
  have h := traversal_ceilings c1doc "s" none 1
  exact ⟨h.1, h.2.1, h.2.2 rfl⟩

/-- C3: when the TOC locator has matched a link with an internal href, the
chosen end id is the first following `toc_links` entry with an internal
href and a target distinct from the start id (`specFirstDistinct`), it is
never the start id itself, and it stays unset exactly when no such
candidate exists before the link list is exhausted. -/
theorem toc_end_first_distinct_internal (root link : Node) (href : String) (i : Nat)
    (hfind : findRiskLink root = some link)
    (hhref : link.attr "href" = some href)
    (hint : strStartsHash href = true)
    (hidx : (toc_links root).findIdx? (fun l => nodeBeq l link) = some i) :
    tocEndId root link (strDropOne href) =
      specFirstDistinct (strDropOne href) ((toc_links root).drop (i + 1)) ∧
    (∀ x, tocEndId root link (strDropOne href) = some x → x ≠ strDropOne href) ∧
    (tocEndId root link (strDropOne href) = none ↔
      ∀ l ∈ (toc_links root).drop (i + 1), ∀ h, l.attr "href" = some h →
        strStartsHash h = false ∨ strDropOne h = strDropOne href) := by
  rw [tocEndId, hidx]
  exact ⟨findEndId_eq_spec _ _, fun x h => findEndId_ne_start _ _ x h,
    findEndId_eq_none_iff _ _⟩

/-- C3 witness: on `c3doc` the locator skips the duplicate `#ra` page link
and chooses `ib`, which differs from the start id. -/
theorem toc_end_first_distinct_internal_witness :
    tocEndId c3doc c3link (strDropOne "#ra") = some "ib" ∧
    ("ib" : String) ≠ strDropOne "#ra" :=
  ⟨rfl, (toc_end_first_distinct_internal c3doc c3link "#ra" 0 rfl rfl rfl rfl).2.1 "ib" rfl⟩

/-- The "No TOC link found" outcome occurs exactly when step 1 found no
link. -/
theorem toc_label_iff_none (root : Node) :
    (extract_via_toc root).2 = "No TOC link found" ↔ findRiskLink root = none := by
  rw [extract_via_toc]
  cases hf : findRiskLink root with
  | none => simp
  | some link =>
    simp only []
    constructor
    · intro h
      exfalso
      split at h
      · exact absurd h (by decide)
      · split at h
        · exact absurd h (by decide)
        · exact toc_label_ne_no_link _ h
    · intro h
      cases h

/-- Step 1 finds no link exactly when no `a` element's `.string` satisfies
either condition. -/
theorem findRiskLink_eq_none_iff (root : Node) :
    findRiskLink root = none ↔
      ∀ n ∈ (descendants root).map Ctx.node,
        isRiskLink1 n = false ∧ isRiskLink2 n = false := by
  rw [findRiskLink]
  cases h1 : ((descendants root).map Ctx.node).find? isRiskLink1 with
  | some l =>
    simp only []
    constructor
    · intro h
      cases h
    · intro h
      exfalso
      have hp := List.find?_some h1
      have hm := List.mem_of_find?_eq_some h1
      rw [(h l hm).1] at hp
      cases hp
  | none =>
    simp only []
    rw [List.find?_eq_none] at h1
    rw [List.find?_eq_none]
    constructor
    · intro h2 n hm
      exact ⟨by simpa using h1 n hm, by simpa using h2 n hm⟩
    · intro h n hm
      simp [(h n hm).2]

/-- C4 (corrected): step 1 of the TOC locator tests each link's `.string`
(the sole text of a single-child chain), not its full visible text; the
`(null, "No TOC link found")` outcome occurs exactly when no link's
`.string` contains the literal phrase and no link's `.string` matches the
case-insensitive item-label pattern. -/
theorem toc_step1_miss_iff_no_string_match (root : Node) :
    (extract_via_toc root).2 = "No TOC link found" ↔
      ∀ n ∈ (descendants root).map Ctx.node,
        isRiskLink1 n = false ∧ isRiskLink2 n = false :=
  (toc_label_iff_none root).trans (findRiskLink_eq_none_iff root)

/-- C4 counterexample: in `c4doc` a link's visible text contains
"Risk Factors", yet the locator reports "No TOC link found" because the
link's `.string` is `None` (it has two children). -/
theorem toc_step1_misses_visible_text :
    ((descendants c4doc).map Ctx.node).any
      (fun n => n.tagName == some "a" && containsSubstr "Risk Factors" (getTextRaw n)) = true ∧
    extract_via_toc c4doc = (none, "No TOC link found") := by
  refine ⟨by decide, by decide⟩

/-- C4 witness: a document with no match at all yields the no-link
outcome. -/
theorem toc_step1_miss_iff_no_string_match_witness :
    (extract_via_toc c4docB).2 = "No TOC link found" :=
  (toc_step1_miss_iff_no_string_match c4docB).mpr (by
    intro n hm
    have h2 := List.all_eq_true.mp (show ((descendants c4docB).map Ctx.node).all
        (fun n => !isRiskLink1 n && !isRiskLink2 n) = true from by decide) n hm
    simp only [Bool.and_eq_true, Bool.not_eq_true'] at h2
    exact h2)

/-- C5: the regex locator's accepted candidate is never inside a link and
its parent's normalized text is under 100 characters; the candidate is the
first match passing both filters; and if none passes, the locator returns
the null span with the header-not-found diagnostic. -/
theorem regex_candidate_filters (nfkc : String → String) (root : Node) :
    (∀ c, regexCandidate nfkc root = some c →
      insideLink c = false ∧
        ∃ par, c.ancestors.head? = some par ∧
          (clean_text nfkc (getTextRaw par)).length < 100) ∧
    regexCandidate nfkc root =
      (((descendants root).filter (fun c => isTextMatch c.node)).filter
        (acceptMatch nfkc)).head? ∧
    (regexCandidate nfkc root = none →
      extract_via_regex nfkc root = (none, "Regex: Header not found")) := by
  refine ⟨?_, find?_eq_head?_filter _ _, ?_⟩
  · intro c hc
    have hp := List.find?_some hc
    rw [acceptMatch, Bool.and_eq_true] at hp
    rcases hp with ⟨hin, hlen⟩
    refine ⟨by simpa using hin, ?_⟩
    cases hh : c.ancestors.head? with
    | none =>
      rw [hh] at hlen
      simp at hlen
    | some par =>
      rw [hh] at hlen
      exact ⟨par, rfl, by simpa using hlen⟩
  · intro h
    rw [extract_via_regex, h]

/-- C5 witness: in `c5doc` the header appears once in a TOC link and once
standalone; the accepted candidate is the standalone occurrence (not inside
a link), and it is the head of the doubly-filtered match list. -/
theorem regex_candidate_filters_witness :
    insideLink c5ctx = false ∧
    regexCandidate (fun s => s) c5doc =
      (((descendants c5doc).filter (fun c => isTextMatch c.node)).filter
        (acceptMatch (fun s => s))).head? := by
  have h := regex_candidate_filters (fun s => s) c5doc
  exact ⟨(h.1 c5ctx rfl).1, h.2.1⟩

/-- C6 (corrected): the driver core always produces the single output file
`{accession}.txt`; when the finally chosen span is *null or empty* it
writes the (normalized) sentinel with status "Not Found"; only a non-empty
chosen span is written as the normalized span with status "Extracted".
(The claim's "otherwise" branch is wrong for the empty-string span.) -/
theorem process_filing_span_cases (nfkc : String → String) (root : Node) (acc : String) :
    (process_filing nfkc root acc).fileName = acc ++ ".txt" ∧
    ((chosenSpan nfkc root).1 = none ∨ (chosenSpan nfkc root).1 = some "" →
      (process_filing nfkc root acc).content = clean_text nfkc sentinel ∧
      (process_filing nfkc root acc).status = "Not Found") ∧
    (∀ s, (chosenSpan nfkc root).1 = some s → s ≠ "" →
      (process_filing nfkc root acc).content = clean_text nfkc s ∧
      (process_filing nfkc root acc).status = "Extracted") :=
  ⟨process_filing_fileName nfkc root acc,
   fun h => process_filing_falsy acc h,
   fun _ h hne => process_filing_nonempty acc h hne⟩

/-- C6 counterexample: on `c6doc` the TOC locator yields null but the regex
locator yields the *non-null* empty span, so under the claim the record
should be "Extracted" with the normalized span; the code instead writes the
sentinel with status "Not Found". -/
theorem process_filing_empty_span_sentinel :
    extract_via_toc c6doc = (none, "No TOC link found") ∧
    extract_via_regex (fun s => s) c6doc = (some "", "Regex extraction") ∧
    process_filing (fun s => s) c6doc "0001" =
      ⟨"0001.txt", "SECTION_NOT_FOUND_OR_REFERENCE_ONLY", "Not Found", "Regex extraction"⟩ ∧
    ("Not Found" : String) ≠ "Extracted" := by
  refine ⟨by decide, by decide, by decide, by decide⟩

/-- C6 witness: the sentinel case on `c6doc` and the extracted case on
`c3doc`. -/
theorem process_filing_span_cases_witness :
    (process_filing (fun s => s) c6doc "0001").fileName = "0001" ++ ".txt" ∧
    (process_filing (fun s => s) c6doc "0001").content = clean_text (fun s => s) sentinel ∧
    (process_filing (fun s => s) c6doc "0001").status = "Not Found" ∧
    (process_filing (fun s => s) c3doc "acc").content = clean_text (fun s => s) "risks here" ∧
    (process_filing (fun s => s) c3doc "acc").status = "Extracted" := by
  have h1 := process_filing_span_cases (fun s => s) c6doc "0001"
  have h2 := process_filing_span_cases (fun s => s) c3doc "acc"
  exact ⟨h1.1, (h1.2.1 (Or.inr rfl)).1, (h1.2.1 (Or.inr rfl)).2,
    (h2.2.2 "risks here" rfl (by decide)).1, (h2.2.2 "risks here" rfl (by decide)).2⟩

/-- C7: the normalizer is idempotent.  The NFKC step is library code; the
hypothesis records the Unicode guarantee actually used, that NFKC fixes a
string it has already normalized after whitespace collapsing.  The
collapsing-and-stripping part is proved idempotent outright
(`normWs_idem`). -/
theorem clean_text_idempotent (nfkc : String → String)
    (h : ∀ s, nfkc (normWs (nfkc s)) = normWs (nfkc s)) (x : String) :
    clean_text nfkc (clean_text nfkc x) = clean_text nfkc x := by
  simp only [clean_text]
  rw [h x, normWs_idem]

/-- C7 witness: idempotence at a concrete string (with the identity for the
NFKC step, which trivially satisfies the hypothesis). -/
theorem clean_text_idempotent_witness :
    clean_text (fun s => s) (clean_text (fun s => s) " a  b ") =
      clean_text (fun s => s) " a  b " :=
  clean_text_idempotent (fun s => s) (fun _ => rfl) " a  b "

/-- C8: the extractor returns null exactly when the start id resolves to no
element of the tree; whenever the start anchor is found it returns the
space-joined accumulator (possibly empty), never null. -/
theorem extract_none_iff_start_unresolved (root : Node) (startId : String)
    (endId : Option String) :
    (extract_content_between_anchors root startId endId = none ↔
      ∀ c ∈ descendants root, matchesId c.node startId = false) ∧
    (∀ i, find_start_idx root startId = some i →
      extract_content_between_anchors root startId endId =
        some (joinSp (extractWalk endId max_elements (tagsAfter root i)).1)) := by
  constructor
  · rw [← find_start_idx_eq_none_iff root startId]
    rw [extract_content_between_anchors, extract_content_list]
    cases h : find_start_idx root startId with
    | none => simp
    | some i => simp
  · intro i h
    rw [extract_content_between_anchors, extract_content_list, h]

/-- C8 witness: on `c1doc`, an unresolvable id gives null and the resolved
id gives the joined accumulator. -/
theorem extract_none_iff_start_unresolved_witness :
    extract_content_between_anchors c1doc "nope" none = none ∧
    extract_content_between_anchors c1doc "s" none =
      some (joinSp (extractWalk none max_elements (tagsAfter c1doc 1)).1) := by
  have h := extract_none_iff_start_unresolved c1doc "nope" none
  have h2 := extract_none_iff_start_unresolved c1doc "s" none
  refine ⟨h.1.mpr ?_, h2.2 1 rfl⟩
  intro c hm
  have hall := List.all_eq_true.mp (show (descendants c1doc).all
      (fun c => !matchesId c.node "nope") = true from by decide) c hm
  simpa using hall

/-- C9: the driver treats an empty-string span exactly like a null one —
an empty TOC span sends it to the regex fallback, an empty final span is
written as the sentinel with status "Not Found" — and (given that NFKC
preserves the presence of a non-whitespace character) the written content
is never the empty string. -/
theorem driver_empty_span_as_null (nfkc : String → String) (root : Node) (acc : String)
    (hn : ∀ s, hasNonWsB s = true → hasNonWsB (nfkc s) = true) :
    (∀ m1, extract_via_toc root = (some "", m1) →
      chosenSpan nfkc root = extract_via_regex nfkc root) ∧
    ((chosenSpan nfkc root).1 = some "" →
      (process_filing nfkc root acc).content = clean_text nfkc sentinel ∧
      (process_filing nfkc root acc).status = "Not Found") ∧
    (process_filing nfkc root acc).content ≠ "" :=
  ⟨fun _ h => chosenSpan_toc_falsy (Or.inr h),
   fun h => process_filing_falsy acc (Or.inr h),
   process_filing_content_ne acc hn⟩

/-- C9 witness: on `c9doc` the TOC span is the empty string and the driver
falls back to the regex locator; on `c6doc` the chosen span is empty and
the sentinel is written; the written content is non-empty. -/
theorem driver_empty_span_as_null_witness :
    chosenSpan (fun s => s) c9doc = extract_via_regex (fun s => s) c9doc ∧
    (process_filing (fun s => s) c6doc "a").content = clean_text (fun s => s) sentinel ∧
    (process_filing (fun s => s) c6doc "a").status = "Not Found" ∧
    (process_filing (fun s => s) c6doc "a").content ≠ "" := by
  have h9 := driver_empty_span_as_null (fun s => s) c9doc "a" (fun _ h => h)
  have h6 := driver_empty_span_as_null (fun s => s) c6doc "a" (fun _ h => h)
  exact ⟨h9.1 "TOC extraction (End anchor: None)" rfl, (h6.2.1 rfl).1, (h6.2.1 rfl).2, h6.2.2⟩

/-- C10: when the matched TOC link's internal target resolves to no element,
the locator returns the null span with the "TOC extraction (End anchor: …)"
diagnostic — not either failure label — and the driver falls back to the
regex locator. -/
theorem toc_unresolved_target_label (nfkc : String → String) (root link : Node)
    (href : String)
    (hfind : findRiskLink root = some link)
    (hhref : link.attr "href" = some href)
    (hint : strStartsHash href = true)
    (hmiss : find_start_idx root (strDropOne href) = none) :
    extract_via_toc root =
      (none, "TOC extraction (End anchor: " ++
        endIdLabel (tocEndId root link (strDropOne href)) ++ ")") ∧
    (extract_via_toc root).2 ≠ "No TOC link found" ∧
    (extract_via_toc root).2 ≠ "TOC link has no internal href" ∧
    chosenSpan nfkc root = extract_via_regex nfkc root := by
  have hne : (href == "" || !strStartsHash href) = false := by
    have h1 : (href == "") = false := by
      cases hb : (href == "") with
      | false => rfl
      | true =>
        have he := eq_of_beq hb
        rw [he] at hint
        exact absurd hint (by decide)
    rw [h1, hint]
    rfl
  have hextr : extract_content_between_anchors root (strDropOne href)
      (tocEndId root link (strDropOne href)) = none := by
    rw [extract_content_between_anchors, extract_content_list, hmiss]
  have htoc : extract_via_toc root =
      (none, "TOC extraction (End anchor: " ++
        endIdLabel (tocEndId root link (strDropOne href)) ++ ")") := by
    rw [extract_via_toc, hfind]
    show (match link.attr "href" with
      | none => (none, "TOC link has no internal href")
      | some href =>
        if href == "" || !strStartsHash href then (none, "TOC link has no internal href")
        else
          (extract_content_between_anchors root (strDropOne href)
              (tocEndId root link (strDropOne href)),
            "TOC extraction (End anchor: " ++
              endIdLabel (tocEndId root link (strDropOne href)) ++ ")")) = _
    rw [hhref]
    show (if href == "" || !strStartsHash href then (none, "TOC link has no internal href")
      else
        (extract_content_between_anchors root (strDropOne href)
            (tocEndId root link (strDropOne href)),
          "TOC extraction (End anchor: " ++
            endIdLabel (tocEndId root link (strDropOne href)) ++ ")")) = _
    rw [if_neg (by rw [hne]; exact Bool.false_ne_true)]
    rw [hextr]
  refine ⟨htoc, ?_, ?_, chosenSpan_toc_falsy (Or.inl htoc)⟩
  · rw [htoc]
    exact toc_label_ne_no_link _
  · rw [htoc]
    exact toc_label_ne_no_href _

/-- C10 witness: `c10doc` has a Risk-Factors link to `#zzz` with no such
anchor; the locator reports the TOC-extraction label with a null span and
the driver uses the regex fallback. -/
theorem toc_unresolved_target_label_witness :
    extract_via_toc c10doc = (none, "TOC extraction (End anchor: None)") ∧
    chosenSpan (fun s => s) c10doc = extract_via_regex (fun s => s) c10doc := by
  have h := toc_unresolved_target_label (fun s => s) c10doc c10link "#zzz" rfl rfl rfl rfl
  refine ⟨?_, h.2.2.2⟩
  rw [h.1]
  decide
